import Mathlib

/-!
Verification development for the TikTok posting analyzer (`src/app.py`).

The file embeds the two pieces of the program that carry logic:

* the record extractor (`process_file_contents`, lines 11-22): a line scanner
  that splits the uploaded text on newlines, strips each line, stores
  `key: value` pairs into an in-progress dictionary and emits the dictionary
  whenever a line starting with the marker `Adds yours text:` is seen;
* the aggregation pipeline (`process_file_contents` lines 24-46,
  `create_heatmap`, and the summary metrics of `main`): a pandas pipeline that
  projects the records to the `Date` and `Like(s)` columns, parses dates as
  UTC, converts to the selected timezone, casts likes to integers, derives
  temporal columns, groups mean likes by (day of week, hour), and rounds.

Library behaviour (pandas, pytz, Python builtins) is modelled explicitly and
each model is documented at its definition site.
-/

namespace TikTok

/-! ## Record extraction (src/app.py lines 11-22) -/

/-- A RawRecord: Python dict from field name to field value.  The list keeps
Python dict key order (first insertion order); `dinsert` below preserves the
invariant that each key occurs at most once. -/
abbrev Rec := List (String × String)

/-- Python dict assignment `d[k] = v`: if the key is already present its value
is updated in place (position kept), otherwise the pair is appended. -/
def dinsert (r : Rec) (k v : String) : Rec :=
  if r.any (fun p => p.1 == k) then
    r.map (fun p => if p.1 = k then (k, v) else p)
  else
    r ++ [(k, v)]

/-- Python dict lookup `d.get(k)`: the value stored under `k`, if any (the
first binding wins; `dinsert` keeps keys unique, so it is the only one). -/
def rget : Rec → String → Option String
  | [], _ => none
  | p :: rest, k => if p.1 = k then some p.2 else rget rest k

/-- Python `k in d`. -/
def hasKey (r : Rec) (k : String) : Bool :=
  r.any (fun p => p.1 == k)

/-- Python `text.split(chr(10))`: split on every newline character; a trailing
newline yields a final empty piece, and the empty text yields one empty
piece. -/
def splitNL : List Char → List (List Char)
  | [] => [[]]
  | c :: rest =>
    if c = '\n' then [] :: splitNL rest
    else
      match splitNL rest with
      | [] => [[c]]
      | l :: ls => (c :: l) :: ls

/-- Python `line.strip()`: drop leading and trailing whitespace characters. -/
def stripChars (cs : List Char) : List Char :=
  ((cs.dropWhile Char.isWhitespace).reverse.dropWhile Char.isWhitespace).reverse

/-- Python `line.split(sep, 1)` for the separator colon-space, but returning
`none` when the separator does not occur, so that it also decides the
membership test `sep in line`.  On `some (k, v)`: `k` is everything before the
first colon-space and `v` everything after it. -/
def findSep : List Char → Option (List Char × List Char)
  | [] => none
  | ':' :: ' ' :: rest => some ([], rest)
  | c :: rest => (findSep rest).map (fun p => (c :: p.1, p.2))

/-- Python `s.startswith(p)`, on character lists. -/
def startsWithList : List Char → List Char → Bool
  | [], _ => true
  | _ :: _, [] => false
  | p :: ps, c :: cs => p == c && startsWithList ps cs

/-- The record terminator marker of the export format. -/
def termMarker : List Char := "Adds yours text:".toList

/-- One iteration of the extraction loop (src/app.py lines 14-22) on a raw
line: strip it; if non-blank, store the first `key: value` split when the
colon-space separator occurs, then, when the stripped line starts with the
terminator marker, append the in-progress record and start a fresh one. -/
def stepLine (st : List Rec × Rec) (raw : List Char) : List Rec × Rec :=
  let l := stripChars raw
  if l.isEmpty then st
  else
    let st1 :=
      match findSep l with
      | some kv => (st.1, dinsert st.2 kv.1.asString kv.2.asString)
      | none => st
    if startsWithList termMarker l then (st1.1 ++ [st1.2], ([] : Rec)) else st1

/-- The extraction phase of `process_file_contents` on a list of raw lines:
fold the loop body over the lines starting from no emitted records and an
empty in-progress record, and return the emitted records (the trailing
in-progress record is dropped). -/
def extractLines (ls : List (List Char)) : List Rec :=
  (ls.foldl stepLine (([] : List Rec), ([] : Rec))).1

/-- The extraction phase of `process_file_contents` on the uploaded text. -/
def extract (text : String) : List Rec :=
  extractLines (splitNL text.toList)

/-! Reference notions used to state the extraction claims. -/

/-- The key/value rule alone, applied to one raw line: strip, and store the
first colon-space split if present. -/
def stepKV (cur : Rec) (raw : List Char) : Rec :=
  match findSep (stripChars raw) with
  | some kv => dinsert cur kv.1.asString kv.2.asString
  | none => cur

/-- Whether a raw line is a terminator line: after stripping it starts with
the marker. -/
def isTermLine (raw : List Char) : Bool :=
  startsWithList termMarker (stripChars raw)

/-- Number of terminator lines in the input. -/
def countTerm (ls : List (List Char)) : Nat :=
  ls.countP isTermLine

/-- The segments of the line list: each segment is a maximal run of lines
ending with a terminator line (the terminator included); lines after the last
terminator belong to no segment. -/
def segs : List (List Char) → List (List (List Char))
  | [] => []
  | l :: ls =>
    if isTermLine l then [l] :: segs ls
    else
      match segs ls with
      | [] => []
      | s :: ss => (l :: s) :: ss

/-- The record a segment denotes: the key/value rule folded over its lines
starting from the empty record. -/
def recOfLines (seg : List (List Char)) : Rec :=
  seg.foldl stepKV ([] : Rec)

/-- The key/value pairs contributed by a list of raw lines, in order. -/
def pairsOf (seg : List (List Char)) : List (String × String) :=
  seg.filterMap (fun raw =>
    (findSep (stripChars raw)).map (fun kv => (kv.1.asString, kv.2.asString)))

/-- The value of the last pair with a given key, if any. -/
def lastVal : List (String × String) → String → Option String
  | [], _ => none
  | p :: ps, k =>
    match lastVal ps k with
    | some v => some v
    | none => if p.1 = k then some p.2 else none

/-- The records denoted by the segments of the line list, with the first
segment folded starting from a given in-progress record; this is the
invariant shape of the extraction fold. -/
def segRecs (cur : Rec) (ls : List (List Char)) : List Rec :=
  match segs ls with
  | [] => []
  | s :: ss => s.foldl stepKV cur :: ss.map recOfLines

/-! ## Calendar arithmetic and date parsing

Models of the subset of `pd.to_datetime` behaviour the program relies on:
strings of the shape `YYYY-MM-DD`, optionally followed by `T` or a space and
`HH:MM:SS`, optionally followed by `Z` or a `+HH:MM` / `-HH:MM` offset, are
parsed to an instant; with `utc=True` a naive string is interpreted as UTC and
an offset-carrying string is converted to UTC.  Other accepted pandas formats
are outside the claims and not modelled.  `NaN` inputs (missing values) map to
`NaT`, which the pipeline threads through as `none`. -/

/-- Leap year test of the proleptic Gregorian calendar. -/
def isLeap (y : Nat) : Bool :=
  (y % 4 == 0 && y % 100 != 0) || y % 400 == 0

/-- Number of days of a month (1-12) in year `y`. -/
def daysInMonth (y m : Nat) : Nat :=
  if m = 2 then (if isLeap y then 29 else 28)
  else if m = 4 ∨ m = 6 ∨ m = 9 ∨ m = 11 then 30
  else 31

/-- Days from 1970-01-01 to the civil date `y-m-d` (standard civil-calendar
day count; valid for years from 1 onward, which the 4-digit parser below
guarantees). -/
def daysFromCivil (y m d : Nat) : Int :=
  let y' := if m ≤ 2 then y - 1 else y
  let era := y' / 400
  let yoe := y' % 400
  let mp := (m + 9) % 12
  let doy := (153 * mp + 2) / 5 + (d - 1)
  let doe := yoe * 365 + yoe / 4 - yoe / 100 + doy
  ((era * 146097 + doe : Nat) : Int) - 719468

/-- Value of a decimal digit character, if it is one. -/
def digitVal (c : Char) : Option Nat :=
  if c.isDigit then some (c.toNat - 48) else none

/-- Parse exactly `n` decimal digits into a number, returning the rest. -/
def parseDigits : Nat → List Char → Option (Nat × List Char)
  | 0, cs => some (0, cs)
  | _ + 1, [] => none
  | n + 1, c :: cs =>
    match digitVal c with
    | none => none
    | some d => (parseDigits n cs).map (fun p => (d * 10 ^ n + p.1, p.2))

/-- Parse the optional clock part `HH:MM:SS` and return seconds in the day. -/
def parseClock (cs : List Char) : Option (Nat × List Char) :=
  match parseDigits 2 cs with
  | none => none
  | some (h, rest1) =>
    match rest1 with
    | ':' :: rest2 =>
      match parseDigits 2 rest2 with
      | none => none
      | some (mi, rest3) =>
        match rest3 with
        | ':' :: rest4 =>
          match parseDigits 2 rest4 with
          | none => none
          | some (s, rest5) =>
            if h ≤ 23 ∧ mi ≤ 59 ∧ s ≤ 59 then
              some (h * 3600 + mi * 60 + s, rest5)
            else none
        | _ => none
    | _ => none

/-- Parse the optional trailing timezone designator; returns the offset
(seconds east of UTC) carried by the string, `0` for `Z` or for a naive
string (with `utc=True` pandas interprets naive strings as UTC). -/
def parseOffset (cs : List Char) : Option Int :=
  match cs with
  | [] => some 0
  | ['Z'] => some 0
  | sign :: rest =>
    if sign = '+' ∨ sign = '-' then
      match parseDigits 2 rest with
      | none => none
      | some (oh, rest1) =>
        match rest1 with
        | ':' :: rest2 =>
          match parseDigits 2 rest2 with
          | none => none
          | some (om, rest3) =>
            if rest3 = [] ∧ oh ≤ 23 ∧ om ≤ 59 then
              some ((if sign = '-' then -1 else 1) * (oh * 3600 + om * 60 : Nat))
            else none
        | _ => none
    else none

/-- Model of `pd.to_datetime(s, utc=True)` on one string: the instant as
seconds since the Unix epoch, UTC, or `none` when the string does not parse.
Covers the ISO-like format family described above. -/
def parseTimestamp (s : String) : Option Int :=
  match parseDigits 4 s.toList with
  | none => none
  | some (y, r1) =>
    match r1 with
    | '-' :: r2 =>
      match parseDigits 2 r2 with
      | none => none
      | some (m, r3) =>
        match r3 with
        | '-' :: r4 =>
          match parseDigits 2 r4 with
          | none => none
          | some (d, r5) =>
            if 1 ≤ m ∧ m ≤ 12 ∧ 1 ≤ d ∧ d ≤ daysInMonth y m then
              match r5 with
              | [] => some (86400 * daysFromCivil y m d)
              | sep :: r6 =>
                if sep = 'T' ∨ sep = ' ' then
                  match parseClock r6 with
                  | none => none
                  | some (secs, r7) =>
                    match parseOffset r7 with
                    | none => none
                    | some off =>
                      some (86400 * daysFromCivil y m d + (secs : Int) - off)
                else none
            else none
        | _ => none
    | _ => none

/-! ## Timezones, integer casting, and the aggregation pipeline
(src/app.py lines 24-46) -/

/-- Model of the pytz / IANA zone database used by `tz_convert`: a zone name
maps to its UTC offset in minutes.  Only fixed-offset zones that the claims
exercise are listed; a name outside the database models
`pytz.exceptions.UnknownTimeZoneError` (for example `Mars/Phobos` is not a
zone).  The pipeline below is parametrised over the database, so theorems
about unknown zones hold for any database. -/
def tzTable : List (String × Int) :=
  [("UTC", 0), ("Etc/UTC", 0), ("GMT", 0), ("Etc/GMT", 0),
   ("Etc/GMT+5", -300), ("Etc/GMT-3", 180)]

/-- Lookup in the modelled zone database. -/
def lookupTz (tz : String) : Option Int :=
  (tzTable.find? (fun p => p.1 == tz)).map (fun p => p.2)

/-- Model of Python `int(s)` as invoked by `Series.astype(int)` on an object
column of strings: surrounding whitespace is ignored, an optional single sign
is allowed, and the remainder must be one or more decimal digits.  (Digit
group underscores accepted by CPython are not modelled; no claim involves
them.) -/
def parseInt (s : String) : Option Int :=
  let cs := stripChars s.toList
  let signed : Int × List Char :=
    match cs with
    | '-' :: r => (-1, r)
    | '+' :: r => (1, r)
    | r => (1, r)
  if signed.2 ≠ [] ∧ signed.2.all Char.isDigit then
    some (signed.1 * (signed.2.foldl (fun a c => a * 10 + (c.toNat - 48)) 0 : Nat))
  else none

/-- One row of the output DataFrame, after the derived columns of lines 37-41
are added.  `date` holds the zone-converted timestamp as local wall-clock
seconds since the epoch (instant plus zone offset); a `none` in `date` and in
the derived fields models the `NaT` / `NaN` that pandas produces for a record
whose `Date` field was missing. -/
structure Row where
  date : Option Int
  likes : Int
  day_of_week : Option String
  time : Option (Nat × Nat × Nat)
  time_period : Option String
  hour : Option Nat
  hour_12 : Option String
deriving DecidableEq

/-- The failure modes of the pipeline body guarded by the `try` of lines
24-46: missing projection columns (`KeyError`), an unparseable date
(`to_datetime` error), an unknown timezone (`tz_convert` error), a missing
like value (`astype` on `NaN`), and an unparseable like string (`astype`
`ValueError`). -/
inductive AggErr where
  | missingColumns
  | dateParse
  | tzUnknown
  | likeNaN
  | likeParse
deriving DecidableEq

/-- Line 25, `pd.DataFrame(records)[[Date, Like(s)]]`: building the frame
takes the union of the record keys as columns, filling missing cells with
`NaN`; the projection raises `KeyError` when either wanted column is absent
from that union (in particular when there are no records at all).  The result
row for a record is its `Date` and `Like(s)` values, `none` for a missing
cell. -/
def projectE (records : List Rec) :
    Except AggErr (List (Option String × Option String)) :=
  if records.isEmpty then .error .missingColumns
  else if records.any (fun r => hasKey r "Date") &&
          records.any (fun r => hasKey r "Like(s)") then
    .ok (records.map (fun r => (rget r "Date", rget r "Like(s)")))
  else .error .missingColumns

/-- Line 29, `pd.to_datetime(column, utc=True)`: missing cells become `NaT`;
any string that fails to parse fails the whole column. -/
def parseDatesE : List (Option String) → Except AggErr (List (Option Int))
  | [] => .ok []
  | none :: rest => (parseDatesE rest).map (fun l => none :: l)
  | some s :: rest =>
    match parseTimestamp s with
    | none => .error .dateParse
    | some t => (parseDatesE rest).map (fun l => some t :: l)

/-- Line 34, `column.astype(int)`: a missing cell (`NaN`) raises, and a
string that `int` rejects raises. -/
def castLikesE : List (Option String) → Except AggErr (List Int)
  | [] => .ok []
  | none :: _ => .error .likeNaN
  | some s :: rest =>
    match parseInt s with
    | none => .error .likeParse
    | some n => (castLikesE rest).map (fun l => n :: l)

/-- Weekday names as produced by `Series.dt.day_name()`, indexed with
Monday = 0 as in the civil day count below. -/
def dayName : Nat → String
  | 0 => "Monday"
  | 1 => "Tuesday"
  | 2 => "Wednesday"
  | 3 => "Thursday"
  | 4 => "Friday"
  | 5 => "Saturday"
  | _ => "Sunday"

/-- Seconds into the local day of a wall-clock timestamp. -/
def zsecs (z : Int) : Nat := (z.emod 86400).toNat

/-- Weekday index (Monday = 0) of a wall-clock timestamp; day 0 of the epoch
was a Thursday. -/
def weekdayIdx (z : Int) : Nat := (((z.ediv 86400) + 3).emod 7).toNat

/-- Two right-aligned zero-padded decimal digits, as `strftime` prints
them. -/
def pad2 (n : Nat) : String :=
  ⟨[Char.ofNat (48 + n / 10 % 10), Char.ofNat (48 + n % 10)]⟩

/-- Lines 37-41: the derived columns of one row, computed from the
zone-converted timestamp (`none` throughout for `NaT`). -/
def mkRow (od : Option Int) (likes : Int) : Row :=
  match od with
  | none => ⟨none, likes, none, none, none, none, none⟩
  | some z =>
    let h := zsecs z / 3600
    ⟨some z, likes,
     some (dayName (weekdayIdx z)),
     some (h, zsecs z % 3600 / 60, zsecs z % 60),
     some (if h < 12 then "AM" else "PM"),
     some h,
     some (pad2 (if h % 12 = 0 then 12 else h % 12))⟩

/-- The body of the `try` block of lines 24-43, parametrised over the zone
database `db`: project, parse dates as UTC, convert to the selected zone
(which first validates the zone name), cast likes to integers, and build the
rows with the derived columns. -/
def aggregateE (db : String → Option Int) (records : List Rec) (tz : String) :
    Except AggErr (List Row) :=
  match projectE records with
  | .error e => .error e
  | .ok cols =>
    match parseDatesE (cols.map (fun c => c.1)) with
    | .error e => .error e
    | .ok dated =>
      match db tz with
      | none => .error .tzUnknown
      | some off =>
        let zoned := dated.map (fun o => o.map (fun t => t + off * 60))
        match castLikesE (cols.map (fun c => c.2)) with
        | .error e => .error e
        | .ok likes => .ok (List.zipWith mkRow zoned likes)

/-- `process_file_contents` with the zone database as a parameter: extraction
runs outside the `try`; any pipeline failure is caught by the `except` of
lines 44-46, which surfaces an error message and returns `None`. -/
def processWith (db : String → Option Int) (text tz : String) :
    Option (List Row) :=
  match aggregateE db (extract text) tz with
  | .ok t => some t
  | .error _ => none

/-- `process_file_contents(file_contents, timezone)` with the modelled pytz
database. -/
def process (text tz : String) : Option (List Row) :=
  processWith lookupTz text tz

/-! ## Heatmap aggregation (src/app.py lines 48-52) and summary metrics
(lines 105-106) -/

/-- Mean of a list of integers as a rational (`Series.mean`). -/
def listMean (l : List Int) : ℚ :=
  ((l.sum : ℚ)) / (l.length : ℚ)

/-- Model of `np.round` half-to-even rounding to an integer: numpy rounds a
value exactly halfway between two integers to the even one. -/
def roundHalfEven (q : ℚ) : Int :=
  let f := ⌊q⌋
  let r := q - (f : ℚ)
  if r < 1 / 2 then f
  else if 1 / 2 < r then f + 1
  else if f % 2 = 0 then f else f + 1

/-- Model of `Series.round(2)` (and of Python `round(x, 2)`): round to two
decimal places, ties to even. -/
def round2 (q : ℚ) : ℚ :=
  ((roundHalfEven (q * 100) : ℚ)) / 100

/-- The grouping keys of line 50, `groupby([day_of_week, hour])`: the
distinct (day, hour) pairs among the rows; rows with a missing key (the `NaT`
rows) are dropped, as pandas drops `NaN` group keys. -/
def groupKeys (rows : List Row) : List (String × Nat) :=
  (rows.filterMap (fun r =>
    match r.day_of_week, r.hour with
    | some d, some h => some (d, h)
    | _, _ => none)).dedup

/-- The like counts of the rows falling in one (day, hour) group. -/
def groupLikes (rows : List Row) (d : String) (h : Nat) : List Int :=
  (rows.filter (fun r => r.day_of_week == some d && r.hour == some h)).map
    (fun r => r.likes)

/-- Lines 50-51: the grouped frame, one entry per observed (day, hour) key,
holding the mean of the like counts of the group rounded to 2 decimals. -/
def dfGrouped (rows : List Row) : List ((String × Nat) × ℚ) :=
  (groupKeys rows).map (fun k => (k, round2 (listMean (groupLikes rows k.1 k.2))))

/-- Line 52, the pivoted heatmap matrix read at one cell: the value stored
for (day, hour), or `none` (`NaN` in the pivot) when no row has that key. -/
def heatCell (rows : List Row) (d : String) (h : Nat) : Option ℚ :=
  ((dfGrouped rows).find? (fun p => p.1 == (d, h))).map (fun p => p.2)

/-- A concrete group of eight posts in the same (Monday, 10) bucket whose
like counts sum to 1, so that the group mean is 1/8 = 0.125 exactly (also
exact in the float64 arithmetic pandas uses, so the rational model and the
program agree on this input). -/
def rowsEighth : List Row :=
  (⟨some 0, 1, some "Monday", some (10, 0, 0), some "AM", some 10, some "10"⟩ : Row) ::
    List.replicate 7
      (⟨some 0, 0, some "Monday", some (10, 0, 0), some "AM", some 10, some "10"⟩ : Row)

/-- The input text of the worked example scenario of the specification. -/
def c2Input : String :=
  "Date: 2024-01-15T10:00:00Z\nLike(s): 10\nAdds yours text: x\nDate: 2024-01-15T10:30:00Z\nLike(s): 20\nAdds yours text: x\n"

/-- The table the pipeline produces for the example input in UTC. -/
def c2Rows : List Row :=
  [⟨some 1705312800, 10, some "Monday", some (10, 0, 0), some "AM",
      some 10, some "10"⟩,
   ⟨some 1705314600, 20, some "Monday", some (10, 30, 0), some "AM",
      some 10, some "10"⟩]

/-- Line 105, the Total Likes metric: `df[Likes].sum()`. -/
def totalLikes (rows : List Row) : Int :=
  (rows.map (fun r => r.likes)).sum

/-- Line 106, the Average Likes metric: `round(df[Likes].mean(), 2)`; the
mean of an empty column is `NaN`, modelled as `none`. -/
def averageLikes (rows : List Row) : Option ℚ :=
  if rows.isEmpty then none
  else some (round2 (listMean (rows.map (fun r => r.likes))))

/-! ## Lemmas about the extractor -/

theorem rget_map_hit (a b : String) :
    ∀ r : Rec, r.any (fun p => p.1 == a) = true →
      rget (r.map (fun p => if p.1 = a then (a, b) else p)) a = some b := by
  intro r
  induction r with
  | nil => intro h; simp at h
  | cons p rest ih =>
    intro h
    by_cases hp : p.1 = a
    · simp [rget, hp]
    · have hrest : rest.any (fun p => p.1 == a) = true := by
        simp only [List.any_cons, Bool.or_eq_true, beq_iff_eq] at h
        exact h.resolve_left hp
      simp [rget, hp, ih hrest]

theorem rget_map_miss (a b k : String) (hk : k ≠ a) :
    ∀ r : Rec,
      rget (r.map (fun p => if p.1 = a then (a, b) else p)) k = rget r k := by
  intro r
  induction r with
  | nil => rfl
  | cons p rest ih =>
    have hak : ¬ ((a : String) = k) := fun h => hk h.symm
    by_cases hp : p.1 = a
    · simp [rget, hp, hak, ih]
    · by_cases hpk : p.1 = k
      · simp [rget, hp, hpk, hk]
      · simp [rget, hp, hpk, ih]

theorem rget_append (r s : Rec) (k : String) :
    rget (r ++ s) k =
      match rget r k with
      | some v => some v
      | none => rget s k := by
  induction r with
  | nil => simp [rget]
  | cons p rest ih =>
    by_cases hp : p.1 = k
    · simp [rget, hp]
    · simp [rget, hp, ih]

theorem rget_eq_none_of_not_any (r : Rec) (k : String)
    (h : r.any (fun p => p.1 == k) = false) : rget r k = none := by
  induction r with
  | nil => rfl
  | cons p rest ih =>
    simp only [List.any_cons, Bool.or_eq_false_iff, beq_eq_false_iff_ne] at h
    simp [rget, h.1, ih h.2]

/-- Python dict lookup after assignment: the assigned key reads back the new
value and every other key is untouched. -/
theorem rget_dinsert (r : Rec) (a b k : String) :
    rget (dinsert r a b) k = if k = a then some b else rget r k := by
  unfold dinsert
  by_cases hmem : r.any (fun p => p.1 == a) = true
  · simp only [hmem, if_true]
    by_cases hk : k = a
    · rw [hk, if_pos rfl]
      exact rget_map_hit a b r hmem
    · rw [if_neg hk]
      exact rget_map_miss a b k hk r
  · simp only [Bool.not_eq_true] at hmem
    simp [hmem, -List.any_eq_true]
    rw [rget_append]
    by_cases hk : k = a
    · rw [hk, rget_eq_none_of_not_any r a hmem]
      simp [rget]
    · rw [if_neg hk]
      have hak : ¬ ((a : String) = k) := fun h => hk h.symm
      cases hr : rget r k with
      | none => simp [rget, hak]
      | some v => rfl

theorem startsWith_term_nil : startsWithList termMarker [] = false := by decide

/-- The loop body in invariant shape: a terminator line emits the in-progress
record updated by the key/value rule and resets it; any other line only
applies the key/value rule. -/
theorem stepLine_eq (recs : List Rec) (cur : Rec) (raw : List Char) :
    stepLine (recs, cur) raw =
      if isTermLine raw then (recs ++ [stepKV cur raw], ([] : Rec))
      else (recs, stepKV cur raw) := by
  unfold stepLine stepKV isTermLine
  cases h : stripChars raw with
  | nil =>
    simp [startsWith_term_nil, findSep]
  | cons c cs =>
    simp only [List.isEmpty_cons, Bool.false_eq_true, if_false]
    cases hf : findSep (c :: cs) <;>
      cases ht : startsWithList termMarker (c :: cs) <;> simp [hf, ht]

theorem segRecs_nil_seed (ls : List (List Char)) :
    segRecs ([] : Rec) ls = (segs ls).map recOfLines := by
  unfold segRecs
  cases h : segs ls with
  | nil => rfl
  | cons s ss => rfl

/-- Invariant of the extraction fold: the emitted records are the already
emitted ones followed by one record per segment of the remaining lines, the
first segment folded from the current in-progress record. -/
theorem foldl_stepLine_eq (ls : List (List Char)) :
    ∀ (recs : List Rec) (cur : Rec),
      (ls.foldl stepLine (recs, cur)).1 = recs ++ segRecs cur ls := by
  induction ls with
  | nil => intro recs cur; simp [segRecs, segs]
  | cons l ls ih =>
    intro recs cur
    rw [List.foldl_cons, stepLine_eq]
    by_cases ht : isTermLine l
    · simp only [ht, if_true]
      rw [ih]
      have hseg : segRecs cur (l :: ls) = stepKV cur l :: (segs ls).map recOfLines := by
        unfold segRecs
        simp [segs, ht, recOfLines]
      rw [hseg, segRecs_nil_seed]
      simp
    · have hseg : segRecs cur (l :: ls) = segRecs (stepKV cur l) ls := by
        unfold segRecs
        simp only [segs, ht, Bool.false_eq_true, if_false]
        cases h : segs ls with
        | nil => rfl
        | cons s ss => simp [List.foldl_cons]
      rw [if_neg ht, ih, hseg]

/-- The extraction output is exactly one record per segment. -/
theorem extractLines_eq_segs (ls : List (List Char)) :
    extractLines ls = (segs ls).map recOfLines := by
  unfold extractLines
  rw [foldl_stepLine_eq ls [] [], segRecs_nil_seed]
  rfl

/-- There are as many segments as terminator lines. -/
theorem segs_length (ls : List (List Char)) :
    (segs ls).length = countTerm ls := by
  induction ls with
  | nil => rfl
  | cons l ls ih =>
    by_cases ht : isTermLine l
    · have hc : countTerm (l :: ls) = countTerm ls + 1 := by
        simp [countTerm, List.countP_cons, ht]
      simp [segs, ht, hc, ih]
    · simp only [segs, ht, Bool.false_eq_true, if_false]
      have hc : countTerm (l :: ls) = countTerm ls := by
        simp [countTerm, List.countP_cons, ht]
      rw [hc, ← ih]
      cases h : segs ls with
      | nil => simp [h]
      | cons s ss => simp [h]

/-- Reading a key out of the record built by the key/value rule: the last
pair with that key among the pairs the lines contribute wins, and a key no
pair mentions reads from the seed record. -/
theorem rget_foldl_stepKV (seg : List (List Char)) :
    ∀ (base : Rec) (k : String),
      rget (seg.foldl stepKV base) k =
        match lastVal (pairsOf seg) k with
        | some v => some v
        | none => rget base k := by
  induction seg with
  | nil => intro base k; simp [pairsOf, lastVal]
  | cons raw seg ih =>
    intro base k
    rw [List.foldl_cons]
    cases hf : findSep (stripChars raw) with
    | none =>
      have hkv : stepKV base raw = base := by unfold stepKV; rw [hf]
      have hp : pairsOf (raw :: seg) = pairsOf seg := by
        unfold pairsOf
        simp [List.filterMap_cons, hf]
      rw [hkv, hp, ih]
    | some kv =>
      have hkv : stepKV base raw = dinsert base kv.1.asString kv.2.asString := by
        unfold stepKV; rw [hf]
      have hp : pairsOf (raw :: seg) =
          (kv.1.asString, kv.2.asString) :: pairsOf seg := by
        unfold pairsOf
        simp [List.filterMap_cons, hf]
      rw [hkv, hp, ih]
      cases hl : lastVal (pairsOf seg) k with
      | some v => simp [lastVal, hl]
      | none =>
        simp only [lastVal, hl]
        rw [rget_dinsert]
        by_cases hk : k = kv.1.asString
        · simp [hk]
        · have : ¬ (kv.1.asString = k) := fun h => hk h.symm
          simp [hk, this]

/-! ## Lemmas about the aggregation pipeline -/

theorem projectE_ok (records : List Rec)
    (cols : List (Option String × Option String))
    (h : projectE records = .ok cols) :
    cols = records.map (fun r => (rget r "Date", rget r "Like(s)")) ∧
      records ≠ [] := by
  unfold projectE at h
  by_cases he : records.isEmpty
  · simp [he] at h
  · simp only [he, Bool.false_eq_true, if_false] at h
    constructor
    · by_cases hc : (records.any (fun r => hasKey r "Date") &&
          records.any (fun r => hasKey r "Like(s)")) = true
      · rw [if_pos hc] at h
        injection h with h
        exact h.symm
      · rw [if_neg hc] at h
        cases h
    · intro hnil
      rw [hnil] at he
      exact he rfl

theorem parseDatesE_ok :
    ∀ (l : List (Option String)) (dl : List (Option Int)),
      parseDatesE l = .ok dl →
      List.Forall₂
        (fun o od => (o = none ∧ od = none) ∨
          ∃ s t, o = some s ∧ parseTimestamp s = some t ∧ od = some t) l dl
  | [], dl, h => by
    cases h
    exact List.Forall₂.nil
  | none :: rest, dl, h => by
    unfold parseDatesE at h
    cases hr : parseDatesE rest with
    | error e => rw [hr] at h; cases h
    | ok restd =>
      rw [hr] at h
      cases h
      exact List.Forall₂.cons (Or.inl ⟨rfl, rfl⟩) (parseDatesE_ok rest restd hr)
  | some s :: rest, dl, h => by
    unfold parseDatesE at h
    cases hp : parseTimestamp s with
    | none => rw [hp] at h; cases h
    | some t =>
      rw [hp] at h
      cases hr : parseDatesE rest with
      | error e => rw [hr] at h; cases h
      | ok restd =>
        rw [hr] at h
        cases h
        exact List.Forall₂.cons (Or.inr ⟨s, t, rfl, hp, rfl⟩)
          (parseDatesE_ok rest restd hr)

theorem castLikesE_ok :
    ∀ (l : List (Option String)) (ns : List Int),
      castLikesE l = .ok ns →
      List.Forall₂ (fun o n => ∃ s, o = some s ∧ parseInt s = some n) l ns
  | [], ns, h => by
    cases h
    exact List.Forall₂.nil
  | none :: rest, ns, h => by
    unfold castLikesE at h
    cases h
  | some s :: rest, ns, h => by
    unfold castLikesE at h
    cases hp : parseInt s with
    | none => rw [hp] at h; cases h
    | some n =>
      rw [hp] at h
      cases hr : castLikesE rest with
      | error e => rw [hr] at h; cases h
      | ok restn =>
        rw [hr] at h
        cases h
        exact List.Forall₂.cons ⟨s, rfl, hp⟩ (castLikesE_ok rest restn hr)

theorem forall2_mem_left {α β : Type} {R : α → β → Prop} :
    ∀ {l₁ : List α} {l₂ : List β}, List.Forall₂ R l₁ l₂ →
      ∀ {a : α}, a ∈ l₁ → ∃ b ∈ l₂, R a b := by
  intro l₁ l₂ h
  induction h with
  | nil => intro a ha; cases ha
  | cons hr hl ih =>
    intro a ha
    rcases List.mem_cons.mp ha with rfl | ha
    · exact ⟨_, List.mem_cons_self _ _, hr⟩
    · obtain ⟨b, hb, hab⟩ := ih ha
      exact ⟨b, List.mem_cons_of_mem _ hb, hab⟩

/-- A like column containing a missing or unparseable entry never casts. -/
theorem castLikesE_error (l : List (Option String))
    (hbad : ∃ o ∈ l, o = none ∨ ∃ s, o = some s ∧ parseInt s = none) :
    ∃ e, castLikesE l = .error e := by
  cases hc : castLikesE l with
  | error e => exact ⟨e, rfl⟩
  | ok ns =>
    exfalso
    obtain ⟨o, hmem, hbad⟩ := hbad
    have hall := castLikesE_ok l ns hc
    obtain ⟨n, -, hrel⟩ := forall2_mem_left hall hmem
    obtain ⟨s, hs, hp⟩ := hrel
    rcases hbad with h | ⟨s', hs', hp'⟩
    · rw [h] at hs; cases hs
    · rw [hs'] at hs
      cases hs
      rw [hp'] at hp
      cases hp

/-- Elimination form of a successful pipeline run. -/
theorem aggregateE_ok_elim (db : String → Option Int) (records : List Rec)
    (tz : String) (t : List Row)
    (h : aggregateE db records tz = .ok t) :
    ∃ cols dated off likes,
      projectE records = .ok cols ∧
      parseDatesE (cols.map (fun c => c.1)) = .ok dated ∧
      db tz = some off ∧
      castLikesE (cols.map (fun c => c.2)) = .ok likes ∧
      t = List.zipWith mkRow (dated.map (fun o => o.map (fun x => x + off * 60)))
        likes := by
  cases hp : projectE records with
  | error e => simp [aggregateE, hp] at h
  | ok cols =>
    cases hd : parseDatesE (cols.map (fun c => c.1)) with
    | error e => simp [aggregateE, hp, hd] at h
    | ok dated =>
      cases htz : db tz with
      | none => simp [aggregateE, hp, hd, htz] at h
      | some off =>
        cases hl : castLikesE (cols.map (fun c => c.2)) with
        | error e => simp [aggregateE, hp, hd, htz, hl] at h
        | ok likes =>
          simp only [aggregateE, hp, hd, htz, hl, Except.ok.injEq] at h
          exact ⟨cols, dated, off, likes, rfl, hd, rfl, hl, h.symm⟩

theorem rget_none_iff (r : Rec) (k : String) :
    rget r k = none ↔ hasKey r k = false := by
  constructor
  · intro h
    induction r with
    | nil => rfl
    | cons p rest ih =>
      unfold rget at h
      by_cases hp : p.1 = k
      · rw [if_pos hp] at h; cases h
      · rw [if_neg hp] at h
        have hr := ih h
        unfold hasKey at hr ⊢
        simp only [List.any_cons, Bool.or_eq_false_iff, beq_eq_false_iff_ne]
        exact ⟨hp, hr⟩
  · exact rget_eq_none_of_not_any r k

theorem mkRow_likes (od : Option Int) (n : Int) : (mkRow od n).likes = n := by
  cases od <;> rfl

/-- Pairing each source record with its output row: the row like count is the
integer parse of the record like string. -/
theorem forall2_rows_aux :
    ∀ (rs : List Rec) (ds : List (Option Int)) (ls : List Int),
      List.Forall₂ (fun o n => ∃ s, o = some s ∧ parseInt s = some n)
        (rs.map (fun r => rget r "Like(s)")) ls →
      ds.length = ls.length →
      List.Forall₂
        (fun r row => ∃ s, rget r "Like(s)" = some s ∧ parseInt s = some row.likes)
        rs (List.zipWith mkRow ds ls) := by
  intro rs
  induction rs with
  | nil =>
    intro ds ls h hlen
    rw [List.map_nil] at h
    rw [List.forall₂_nil_left_iff.mp h]
    simp
  | cons r rs ih =>
    intro ds ls h hlen
    rw [List.map_cons] at h
    rcases List.forall₂_cons_left_iff.mp h with ⟨n, ls', hrel, hrest, rfl⟩
    cases ds with
    | nil => simp at hlen
    | cons d ds' =>
      rw [List.zipWith_cons_cons]
      refine List.Forall₂.cons ?_ (ih ds' ls' hrest (by simpa using hlen))
      obtain ⟨s, hs, hp⟩ := hrel
      exact ⟨s, hs, by rw [mkRow_likes]; exact hp⟩

/-- Every successful run pairs records with rows whose like count is the
integer parse of the record like string. -/
theorem aggregateE_ok_likes (db : String → Option Int) (records : List Rec)
    (tz : String) (t : List Row) (h : aggregateE db records tz = .ok t) :
    List.Forall₂
      (fun r row => ∃ s, rget r "Like(s)" = some s ∧ parseInt s = some row.likes)
      records t := by
  obtain ⟨cols, dated, off, likes, hp, hd, htz, hl, ht⟩ :=
    aggregateE_ok_elim db records tz t h
  obtain ⟨hcols, -⟩ := projectE_ok records cols hp
  subst hcols
  have hlik : List.Forall₂ (fun o n => ∃ s, o = some s ∧ parseInt s = some n)
      (records.map (fun r => rget r "Like(s)")) likes := by
    have := castLikesE_ok _ likes hl
    simpa [List.map_map, Function.comp] using this
  have hlen : (dated.map (fun o => o.map (fun x => x + off * 60))).length =
      likes.length := by
    have h1 := (parseDatesE_ok _ dated hd).length_eq
    have h2 := (castLikesE_ok _ likes hl).length_eq
    simp only [List.length_map] at h1 h2 ⊢
    omega
  rw [ht]
  exact forall2_rows_aux records _ likes hlik hlen

theorem projectE_err_noDate (records : List Rec)
    (h : records.any (fun r => hasKey r "Date") = false) :
    projectE records = .error .missingColumns := by
  unfold projectE
  by_cases he : records.isEmpty
  · rw [if_pos he]
  · rw [if_neg he, if_neg]
    simp [h]

theorem aggregateE_of_proj_err (db : String → Option Int) (records : List Rec)
    (tz : String) (e : AggErr) (h : projectE records = .error e) :
    aggregateE db records tz = .error e := by
  unfold aggregateE
  rw [h]

theorem processWith_eq_none (db : String → Option Int) (text tz : String)
    (e : AggErr) (h : aggregateE db (extract text) tz = .error e) :
    processWith db text tz = none := by
  unfold processWith
  rw [h]

theorem processWith_eq_some (db : String → Option Int) (text tz : String)
    (t : List Row) (h : processWith db text tz = some t) :
    aggregateE db (extract text) tz = .ok t := by
  unfold processWith at h
  cases hc : aggregateE db (extract text) tz with
  | error e => rw [hc] at h; cases h
  | ok u => rw [hc] at h; cases h; rfl

/-! ## Lemmas about the heatmap grouping -/

theorem find_keyed (dh : String × Nat) (v : String × Nat → ℚ) :
    ∀ ks : List (String × Nat),
      ((ks.map (fun k => (k, v k))).find? (fun p => p.1 == dh)) =
        if dh ∈ ks then some (dh, v dh) else none := by
  intro ks
  induction ks with
  | nil => simp
  | cons k ks ih =>
    rw [List.map_cons]
    by_cases hk : k = dh
    · subst hk
      rw [List.find?_cons_of_pos _ (by simp)]
      simp
    · rw [List.find?_cons_of_neg _ (by simp [hk]), ih]
      have hne : ¬ dh = k := fun h => hk h.symm
      have : (dh ∈ k :: ks) ↔ dh ∈ ks := by simp [List.mem_cons, hne]
      rw [if_congr this rfl rfl]

theorem mem_groupKeys (rows : List Row) (d : String) (h : Nat) :
    ((d, h) ∈ groupKeys rows) ↔ groupLikes rows d h ≠ [] := by
  unfold groupKeys groupLikes
  rw [List.mem_dedup, List.mem_filterMap]
  constructor
  · rintro ⟨r, hr, hk⟩ hnil
    rw [List.map_eq_nil_iff, List.filter_eq_nil_iff] at hnil
    have hday : r.day_of_week = some d ∧ r.hour = some h := by
      cases hd : r.day_of_week with
      | none => rw [hd] at hk; cases hk
      | some d' =>
        cases hh : r.hour with
        | none => rw [hd, hh] at hk; cases hk
        | some h' =>
          rw [hd, hh] at hk
          cases hk
          exact ⟨rfl, rfl⟩
    exact hnil r hr (by simp [hday.1, hday.2])
  · intro hne
    rcases hc : (rows.filter
        (fun r => r.day_of_week == some d && r.hour == some h)) with _ | ⟨r, rest⟩
    · rw [hc] at hne
      simp at hne
    · have hr : r ∈ rows.filter
          (fun r => r.day_of_week == some d && r.hour == some h) := by
        rw [hc]; exact List.mem_cons_self _ _
      rw [List.mem_filter] at hr
      refine ⟨r, hr.1, ?_⟩
      have := hr.2
      simp only [Bool.and_eq_true, beq_iff_eq] at this
      rw [this.1, this.2]

/-- Reading one cell of the pivoted heatmap: the rounded mean of the like
counts of the matching rows, absent exactly when no row matches. -/
theorem heatCell_spec (rows : List Row) (d : String) (h : Nat) :
    heatCell rows d h =
      if groupLikes rows d h = [] then none
      else some (round2 (listMean (groupLikes rows d h))) := by
  unfold heatCell dfGrouped
  rw [find_keyed (d, h) (fun k => round2 (listMean (groupLikes rows k.1 k.2)))
    (groupKeys rows)]
  by_cases hg : groupLikes rows d h = []
  · rw [if_neg (fun hmem => (mem_groupKeys rows d h).mp hmem hg), if_pos hg]
    rfl
  · rw [if_pos ((mem_groupKeys rows d h).mpr hg), if_neg hg]
    rfl

theorem roundHalfEven_intCast (n : Int) : roundHalfEven ((n : ℚ)) = n := by
  unfold roundHalfEven
  rw [Int.floor_intCast]
  norm_num

theorem round2_intCast (n : Int) : round2 ((n : ℚ)) = n := by
  unfold round2
  have h : ((n : ℚ)) * 100 = (((n * 100 : Int)) : ℚ) := by push_cast; ring
  rw [h, roundHalfEven_intCast]
  push_cast
  field_simp

/-- A mean of exactly one eighth rounds down to 0.12: the tie at the second
decimal goes to the even digit. -/
theorem round2_eighth : round2 ((1 : ℚ) / 8) = 3 / 25 := by
  unfold round2 roundHalfEven
  have h1 : ((1 : ℚ) / 8) * 100 = 25 / 2 := by norm_num
  have hf : ⌊(25 / 2 : ℚ)⌋ = 12 := by
    rw [Int.floor_eq_iff]
    norm_num
  rw [h1, hf]
  norm_num

/-! ## Claim theorems -/

/-- C3 counterexample: the claim says each record contains exactly the pairs
of the lines strictly between its start and its terminator line; but on a
terminator line that itself contains the colon-space separator, its own pair
is stored into the record before the record is emitted, so the record of this
one-block input also holds the pair of the terminator line. -/
theorem c3_counterexample :
    extract "a: 1\nAdds yours text: x" =
      [[("a", "1"), ("Adds yours text", "x")]] ∧
    extract "a: 1\nAdds yours text: x" ≠ [[("a", "1")]] := by
  constructor
  · decide
  · decide

/-- C3 (amended): extraction returns one record per terminator line, in
terminator order; each record holds exactly the pairs of the separator lines
of its segment, the terminator line included, with the last value for a key
winning. -/
theorem c3_extract_segments (ls : List (List Char)) :
    extractLines ls = (segs ls).map recOfLines ∧
    (extractLines ls).length = countTerm ls ∧
    (∀ seg, seg ∈ segs ls →
      ∀ k, rget (recOfLines seg) k = lastVal (pairsOf seg) k) := by
  refine ⟨extractLines_eq_segs ls, ?_, ?_⟩
  · rw [extractLines_eq_segs ls, List.length_map, segs_length]
  · intro seg hseg k
    unfold recOfLines
    rw [rget_foldl_stepKV seg ([] : Rec) k]
    cases lastVal (pairsOf seg) k with
    | none => rfl
    | some v => rfl

/-- C3 witness: the amended statement evaluated on a concrete two-line
block. -/
theorem c3_extract_segments_witness :
    rget (recOfLines ["Date: d".toList, "Adds yours text: x".toList]) "Date" =
      lastVal (pairsOf ["Date: d".toList, "Adds yours text: x".toList]) "Date" :=
  (c3_extract_segments ["Date: d".toList, "Adds yours text: x".toList]).2.2
    ["Date: d".toList, "Adds yours text: x".toList] (by decide) "Date"

/-- C4: on a terminator line that also contains the colon-space separator,
the key/value pair of the line is stored into the in-progress record first,
and the record including that pair is then emitted and the accumulator
reset. -/
theorem c4_terminator_stores_pair_first (recs : List Rec) (cur : Rec)
    (raw : List Char) (k v : List Char)
    (hterm : startsWithList termMarker (stripChars raw) = true)
    (hsep : findSep (stripChars raw) = some (k, v)) :
    stepLine (recs, cur) raw =
      (recs ++ [dinsert cur k.asString v.asString], ([] : Rec)) := by
  rw [stepLine_eq, if_pos (show isTermLine raw = true from hterm)]
  unfold stepKV
  rw [hsep]

/-- C4 witness: the terminator line with a pair, on the empty state. -/
theorem c4_terminator_stores_pair_first_witness :
    stepLine (([] : List Rec), ([] : Rec)) "Adds yours text: x".toList =
      ([[("Adds yours text", "x")]], ([] : Rec)) := by
  rw [c4_terminator_stores_pair_first ([] : List Rec) ([] : Rec)
    "Adds yours text: x".toList "Adds yours text".toList "x".toList
    (by decide) (by decide)]
  decide

theorem foldl_noTerm (ss : List (List Char)) :
    ∀ (recs : List Rec) (cur : Rec), (∀ l ∈ ss, isTermLine l = false) →
      (ss.foldl stepLine (recs, cur)).1 = recs := by
  induction ss with
  | nil => intro recs cur _; rfl
  | cons l ss ih =>
    intro recs cur h
    rw [List.foldl_cons, stepLine_eq,
      if_neg (by simp [h l (List.mem_cons_self _ _)])]
    exact ih recs (stepKV cur l) (fun x hx => h x (List.mem_cons_of_mem _ hx))

/-- C5: a trailing block never followed by a terminator line is discarded:
appending terminator-free lines changes nothing about the output, so neither
the length nor any pair of the trailing block reaches the result. -/
theorem c5_trailing_block_discarded (ls ss : List (List Char))
    (h : ∀ l ∈ ss, isTermLine l = false) :
    extractLines (ls ++ ss) = extractLines ls := by
  unfold extractLines
  rw [List.foldl_append]
  rcases hst : ls.foldl stepLine (([] : List Rec), ([] : Rec)) with ⟨recs, cur⟩
  exact foldl_noTerm ss recs cur h

/-- C5 witness: a dangling block after the last terminator is dropped. -/
theorem c5_trailing_block_discarded_witness :
    extractLines (["Date: d".toList, "Adds yours text: x".toList] ++
      ["Date: e".toList, "Like(s): 9".toList]) =
      extractLines ["Date: d".toList, "Adds yours text: x".toList] :=
  c5_trailing_block_discarded
    ["Date: d".toList, "Adds yours text: x".toList]
    ["Date: e".toList, "Like(s): 9".toList] (by decide)

/-- C9: extraction is total and structural: it always yields exactly one
record per terminator line (so a finite sequence, with no error), a blank
line leaves the state unchanged, and a line matching neither the separator
rule nor the terminator rule leaves the state unchanged. -/
theorem c9_extraction_total :
    (∀ ls, (extractLines ls).length = countTerm ls) ∧
    (∀ (recs : List Rec) (cur : Rec) raw, stripChars raw = [] →
      stepLine (recs, cur) raw = (recs, cur)) ∧
    (∀ (recs : List Rec) (cur : Rec) raw, findSep (stripChars raw) = none →
      isTermLine raw = false → stepLine (recs, cur) raw = (recs, cur)) := by
  refine ⟨?_, ?_, ?_⟩
  · intro ls
    rw [extractLines_eq_segs ls, List.length_map, segs_length]
  · intro recs cur raw h
    have hterm : isTermLine raw = false := by
      unfold isTermLine
      rw [h, startsWith_term_nil]
    rw [stepLine_eq, if_neg (by simp [hterm])]
    unfold stepKV
    rw [h]
    simp [findSep]
  · intro recs cur raw hsep hterm
    rw [stepLine_eq, if_neg (by simp [hterm])]
    unfold stepKV
    rw [hsep]

/-- C9 witness: the totality statement evaluated on concrete lines: a text
with strange lines still yields one record per terminator, and blank or
rule-free lines are no-ops. -/
theorem c9_extraction_total_witness :
    (extractLines ["::".toList, "a: 1: 2".toList, "   ".toList]).length =
      countTerm ["::".toList, "a: 1: 2".toList, "   ".toList] ∧
    stepLine (([] : List Rec), ([] : Rec)) "   ".toList = (([] : List Rec), ([] : Rec)) ∧
    stepLine (([] : List Rec), ([] : Rec)) "no separator here".toList =
      (([] : List Rec), ([] : Rec)) :=
  ⟨c9_extraction_total.1 ["::".toList, "a: 1: 2".toList, "   ".toList],
   c9_extraction_total.2.1 ([] : List Rec) ([] : Rec) "   ".toList (by decide),
   c9_extraction_total.2.2 ([] : List Rec) ([] : Rec) "no separator here".toList
     (by decide) (by decide)⟩

/-- C1 counterexample: a batch in which the second record lacks `Date` (while
another record has it, and all records have `Like(s)`) does NOT fail: the
pipeline returns a two-row table whose second row carries the missing-value
markers, contradicting the claim that any missing `Date` aborts with no
output. -/
theorem c1_counterexample :
    (∃ r ∈ extract
        "Date: 2024-01-15T10:00:00Z\nLike(s): 10\nAdds yours text: x\nLike(s): 20\nAdds yours text: x\n",
      rget r "Date" = none) ∧
    process
        "Date: 2024-01-15T10:00:00Z\nLike(s): 10\nAdds yours text: x\nLike(s): 20\nAdds yours text: x\n"
        "UTC" =
      some [⟨some 1705312800, 10, some "Monday", some (10, 0, 0), some "AM",
              some 10, some "10"⟩,
            ⟨none, 20, none, none, none, none, none⟩] := by
  constructor
  · exact ⟨[("Like(s)", "20"), ("Adds yours text", "x")], by decide, by decide⟩
  · decide

/-- C1 (amended): a record missing `Like(s)` always aborts the whole
aggregation with an error (whichever step first raises), and so does a batch
in which no record at all carries a `Date` key; but a record missing only its
`Date` while some other record has one yields a row of missing values
instead of aborting (see the counterexample). -/
theorem c1_missing_field_aborts (db : String → Option Int) (records : List Rec)
    (tz : String) :
    ((∃ r ∈ records, rget r "Like(s)" = none) →
      ∃ e, aggregateE db records tz = .error e) ∧
    (records ≠ [] → (∀ r ∈ records, rget r "Date" = none) →
      ∃ e, aggregateE db records tz = .error e) := by
  constructor
  · intro hbad
    cases hagg : aggregateE db records tz with
    | error e => exact ⟨e, rfl⟩
    | ok t =>
      exfalso
      obtain ⟨r, hr, hnone⟩ := hbad
      have hall := aggregateE_ok_likes db records tz t hagg
      obtain ⟨row, -, s, hs, -⟩ := forall2_mem_left hall hr
      rw [hnone] at hs
      cases hs
  · intro hne hnodate
    have hany : records.any (fun r => hasKey r "Date") = false := by
      rw [List.any_eq_false]
      intro r hr
      have := (rget_none_iff r "Date").mp (hnodate r hr)
      simp [this]
    exact ⟨.missingColumns,
      aggregateE_of_proj_err db records tz .missingColumns
        (projectE_err_noDate records hany)⟩

/-- C1 witness: a one-record batch missing `Like(s)` aborts, and a one-record
batch with no `Date` key anywhere aborts. -/
theorem c1_missing_field_aborts_witness :
    (∃ e, aggregateE lookupTz [[("Date", "2024-01-15")]] "UTC" = .error e) ∧
    (∃ e, aggregateE lookupTz [[("Like(s)", "3")]] "UTC" = .error e) :=
  ⟨(c1_missing_field_aborts lookupTz [[("Date", "2024-01-15")]] "UTC").1
      ⟨[("Date", "2024-01-15")], by decide, by decide⟩,
   (c1_missing_field_aborts lookupTz [[("Like(s)", "3")]] "UTC").2
      (by decide) (by decide)⟩

/-- C6 counterexample: the like string of the single record is `-5`, the
string form of a negative integer; the claim says this must abort with no
output, yet the pipeline returns a table whose like count is the negative
integer -5. -/
theorem c6_counterexample :
    process "Date: 2024-01-15T10:00:00Z\nLike(s): -5\nAdds yours text: x\n"
        "UTC" =
      some [⟨some 1705312800, -5, some "Monday", some (10, 0, 0), some "AM",
              some 10, some "10"⟩] ∧
    (-5 : Int) < 0 := by
  constructor
  · decide
  · decide

/-- C6 (amended): a record whose like value is missing or not an
optionally-signed integer string always aborts the aggregation; and in every
produced table each row like count is exactly the integer parse of its
record like string — an integer that may be negative, since the cast accepts
a sign. -/
theorem c6_like_cast (db : String → Option Int) (records : List Rec)
    (tz : String) :
    ((∃ r ∈ records, rget r "Like(s)" = none ∨
        ∃ s, rget r "Like(s)" = some s ∧ parseInt s = none) →
      ∃ e, aggregateE db records tz = .error e) ∧
    (∀ t, aggregateE db records tz = .ok t →
      List.Forall₂
        (fun r row => ∃ s, rget r "Like(s)" = some s ∧ parseInt s = some row.likes)
        records t) := by
  constructor
  · intro hbad
    cases hagg : aggregateE db records tz with
    | error e => exact ⟨e, rfl⟩
    | ok t =>
      exfalso
      obtain ⟨r, hr, hb⟩ := hbad
      have hall := aggregateE_ok_likes db records tz t hagg
      obtain ⟨row, -, s, hs, hp⟩ := forall2_mem_left hall hr
      rcases hb with hb | ⟨s', hs', hp'⟩
      · rw [hb] at hs; cases hs
      · rw [hs'] at hs
        cases hs
        rw [hp'] at hp
        cases hp
  · intro t hagg
    exact aggregateE_ok_likes db records tz t hagg

/-- C6 witness: an unparseable like string aborts, and the produced row of a
valid batch carries the parsed like count. -/
theorem c6_like_cast_witness :
    (∃ e, aggregateE lookupTz
        [[("Date", "2024-01-15"), ("Like(s)", "ten")]] "UTC" = .error e) ∧
    List.Forall₂
      (fun (r : Rec) (row : Row) => ∃ s, rget r "Like(s)" = some s ∧
        parseInt s = some row.likes)
      [[("Date", "2024-01-15"), ("Like(s)", "7")]]
      [⟨some 1705276800, 7, some "Monday", some (0, 0, 0), some "AM",
          some 0, some "12"⟩] :=
  ⟨(c6_like_cast lookupTz [[("Date", "2024-01-15"), ("Like(s)", "ten")]] "UTC").1
      ⟨[("Date", "2024-01-15"), ("Like(s)", "ten")], by decide,
        Or.inr ⟨"ten", by decide, by decide⟩⟩,
   (c6_like_cast lookupTz [[("Date", "2024-01-15"), ("Like(s)", "7")]] "UTC").2
      _ (by rfl)⟩

/-- C7 counterexample: with an unparseable date and the unknown zone
`Mars/Phobos`, the pipeline fails with the date-parse error, not the
unknown-timezone error: date strings are parsed (line 29) before the zone is
validated (line 32), contradicting the claim that the unknown-zone failure
happens before any record date is parsed, regardless of date validity. -/
theorem c7_counterexample :
    aggregateE lookupTz
        (extract "Date: garbage\nLike(s): 10\nAdds yours text: x\n")
        "Mars/Phobos" = .error .dateParse ∧
    AggErr.dateParse ≠ AggErr.tzUnknown ∧
    lookupTz "Mars/Phobos" = none := by
  refine ⟨by rfl, by decide, by decide⟩

/-- C7 (amended): an unrecognized zone always makes the whole run fail and
return no table, whatever the records contain; but the unknown-zone error
itself is only reached after projection and date parsing succeed — an
earlier failure is reported as that earlier error instead. -/
theorem c7_unknown_tz (db : String → Option Int) (tz : String)
    (hdb : db tz = none) :
    (∀ text, processWith db text tz = none) ∧
    (∀ records cols dated, projectE records = .ok cols →
      parseDatesE (cols.map (fun c => c.1)) = .ok dated →
      aggregateE db records tz = .error .tzUnknown) := by
  constructor
  · intro text
    cases hagg : aggregateE db (extract text) tz with
    | error e => exact processWith_eq_none db text tz e hagg
    | ok t =>
      exfalso
      obtain ⟨-, -, off, -, -, -, htz, -⟩ :=
        aggregateE_ok_elim db (extract text) tz t hagg
      rw [hdb] at htz
      cases htz
  · intro records cols dated hp hd
    simp [aggregateE, hp, hd, hdb]

/-- C7 witness: `Mars/Phobos` is unknown, so processing returns `None`, and
on a batch whose projection and dates are fine the reported error is the
unknown-zone one. -/
theorem c7_unknown_tz_witness :
    processWith lookupTz
        "Date: 2024-01-15T10:00:00Z\nLike(s): 10\nAdds yours text: x\n"
        "Mars/Phobos" = none ∧
    aggregateE lookupTz [[("Date", "2024-01-15"), ("Like(s)", "10")]]
        "Mars/Phobos" = .error .tzUnknown :=
  ⟨(c7_unknown_tz lookupTz "Mars/Phobos" (by decide)).1
      "Date: 2024-01-15T10:00:00Z\nLike(s): 10\nAdds yours text: x\n",
   (c7_unknown_tz lookupTz "Mars/Phobos" (by decide)).2
      [[("Date", "2024-01-15"), ("Like(s)", "10")]]
      [(some "2024-01-15", some "10")] [some 1705276800] (by rfl) (by rfl)⟩

/-- C10: the processing entry point is total: for every text and zone it
either returns the table of a successful pipeline run or returns the
distinguished value `None`, exactly when some pipeline step failed (the
`except` clause maps every failure to an error message plus `None`). -/
theorem c10_process_total (text tz : String) :
    (∃ t, process text tz = some t ∧
      aggregateE lookupTz (extract text) tz = .ok t) ∨
    (process text tz = none ∧
      ∃ e, aggregateE lookupTz (extract text) tz = .error e) := by
  cases h : aggregateE lookupTz (extract text) tz with
  | ok t =>
    left
    refine ⟨t, ?_, rfl⟩
    unfold process processWith
    rw [h]
  | error e =>
    right
    exact ⟨processWith_eq_none lookupTz text tz e h, e, rfl⟩

/-- C2: the worked example of the specification: two posts on Monday
2024-01-15 at 10:00 and 10:30 UTC with 10 and 20 likes, displayed in UTC,
give a two-row table with hour 10 and day Monday throughout, a (Monday, 10)
heat cell of 15.0, total likes 30, and average likes 15.0. -/
theorem c2_example_scenario :
    process c2Input "UTC" = some c2Rows ∧
    c2Rows.length = 2 ∧
    (∀ r ∈ c2Rows, r.hour = some 10 ∧ r.day_of_week = some "Monday") ∧
    heatCell c2Rows "Monday" 10 = some 15 ∧
    totalLikes c2Rows = 30 ∧
    averageLikes c2Rows = some 15 := by
  have hm : listMean [(10 : Int), 20] = (((15 : Int)) : ℚ) := by
    norm_num [listMean, List.sum_cons, List.sum_nil]
  refine ⟨by decide, by decide, by decide, ?_, by decide, ?_⟩
  · have hg : groupLikes c2Rows "Monday" 10 = [10, 20] := by decide
    rw [heatCell_spec, hg, if_neg (by simp), hm, round2_intCast]
    norm_num
  · have hl : c2Rows.map (fun r => r.likes) = [(10 : Int), 20] := by decide
    unfold averageLikes
    rw [if_neg (by decide), hl, hm, round2_intCast]
    norm_num

/-- C8 counterexample: eight posts in the (Monday, 10) bucket with like
counts summing to 1 have mean 0.125; rounding half-up to 2 decimals would
give 0.13, but the pipeline (numpy rounding, ties to even) produces
0.12 = 3/25. -/
theorem c8_counterexample :
    heatCell rowsEighth "Monday" 10 = some (3 / 25) ∧
    listMean (groupLikes rowsEighth "Monday" 10) = 1 / 8 ∧
    (3 / 25 : ℚ) ≠ 13 / 100 := by
  have hg : groupLikes rowsEighth "Monday" 10 = [1, 0, 0, 0, 0, 0, 0, 0] := by
    decide
  have hm : listMean [(1 : Int), 0, 0, 0, 0, 0, 0, 0] = (1 : ℚ) / 8 := by
    norm_num [listMean, List.sum_cons, List.sum_nil]
  refine ⟨?_, by rw [hg, hm], by norm_num⟩
  rw [heatCell_spec, hg, if_neg (by simp), hm, round2_eighth]

/-- C8 (amended): the heat cell of a (day, hour) key with at least one post
is the arithmetic mean of the group like counts rounded to 2 decimal places
with ties to even (numpy rounding, not half-up), and a key with no posts is
absent from the matrix. -/
theorem c8_heat_cell_mean (rows : List Row) (d : String) (h : Nat) :
    (groupLikes rows d h = [] → heatCell rows d h = none) ∧
    (groupLikes rows d h ≠ [] →
      heatCell rows d h = some (round2 (listMean (groupLikes rows d h)))) := by
  constructor
  · intro hg
    rw [heatCell_spec, if_pos hg]
  · intro hg
    rw [heatCell_spec, if_neg hg]

/-- C8 witness: both directions on concrete row lists: the eighth-mean group
reads back its rounded mean, and an unobserved key is absent. -/
theorem c8_heat_cell_mean_witness :
    heatCell rowsEighth "Monday" 10 =
      some (round2 (listMean (groupLikes rowsEighth "Monday" 10))) ∧
    heatCell rowsEighth "Tuesday" 9 = none :=
  ⟨(c8_heat_cell_mean rowsEighth "Monday" 10).2 (by decide),
   (c8_heat_cell_mean rowsEighth "Tuesday" 9).1 (by decide)⟩

end TikTok
